import Mathlib

/-!
Verification of the behavioral-test evaluation core (`evaluation.py`) of the
Behavioral_Model_Testing_Checklist repository.

The embedding models one input file as a `List Line`, where a `Line` is either a
blank line (a physical line whose `strip()` is empty, evaluation.py lines 20, 64,
127) or a well-formed tab-separated row of exactly five fields
`(sentence_id, token_id, token, gold_label, system_label)` (lines 30, 67, 130).
Rows with a wrong field count raise a ValueError in Python; no claim depends on
them, so they are outside the `Line` type.

Python `int(...)` conversion of a sentence id (lines 68, 131) is modelled by
`pyInt`: an optional sign followed by ASCII digits.  Python additionally accepts
surrounding whitespace, underscores between digits and unicode digits; no claim
depends on those inputs.

The failure-rate arithmetic `int((failed / total) * 100)` (lines 46-47, 109-110,
169-170) runs in IEEE-754 binary64 in Python: a correctly rounded
(round-to-nearest, ties-to-even) division, a correctly rounded multiplication by
100, and an `int(...)` truncation toward zero.  `roundQ` models one binary64
rounding of a nonnegative real value (53-bit significand, unbounded exponent
range: the scorers only round quotients `failed/total` with
`0 ≤ failed ≤ 2 * total` and their products with 100, which are far inside the
normal range for any realizable file, and never negative).  Exceptions
(ZeroDivisionError, IndexError, ValueError, UnboundLocalError) are modelled with
`Except`.
-/

/-- One tab-separated data row, after `line.strip().split('\t')` has produced
exactly five fields (evaluation.py lines 30, 67, 130). -/
structure Row where
  sentence_id : String
  token_id : String
  token : String
  gold_label : String
  system_label : String
deriving DecidableEq

/-- One physical line of an input file: blank (`line.strip() == ""`) or a
five-field row. -/
inductive Line where
  | blank : Line
  | row : Row → Line
deriving DecidableEq

/-- The Python exceptions that the evaluation module can raise. -/
inductive PyErr where
  | valueError : PyErr
  | indexError : PyErr
  | zeroDivisionError : PyErr
  | unboundLocalError : PyErr
deriving DecidableEq

/-- Value of an ASCII digit character, `none` otherwise. -/
def digitVal (c : Char) : Option Nat :=
  if '0' ≤ c ∧ c ≤ '9' then some (c.toNat - 48) else none

/-- Fold a digit string into a number; `none` if empty or any non-digit. -/
def digitsVal : List Char → Option Nat
  | [] => none
  | [c] => digitVal c
  | c :: rest =>
    match digitVal c, digitsVal rest with
    | some d, some n => some (d * 10 ^ rest.length + n)
    | _, _ => none

/-- Model of Python `int(s)` on a string field: optional sign, then ASCII
digits (see the header for the simplification note). -/
def pyInt (s : String) : Option Int :=
  match s.toList with
  | '-' :: rest => (digitsVal rest).map (fun n => -(n : Int))
  | '+' :: rest => (digitsVal rest).map (fun n => (n : Int))
  | l => (digitsVal l).map (fun n => (n : Int))

/-- Whether the pattern list occurs at the head of the second list. -/
def listLeads : List Char → List Char → Bool
  | [], _ => true
  | _ :: _, [] => false
  | p :: ps, c :: cs => p == c && listLeads ps cs

/-- Whether the pattern occurs anywhere in the list (Python `pat in s`). -/
def listHasSub (pat : List Char) : List Char → Bool
  | [] => listLeads pat []
  | c :: cs => listLeads pat (c :: cs) || listHasSub pat cs

/-- Python substring test `pat in s` on strings (evaluation.py lines 174-180). -/
def strHasSub (s pat : String) : Bool :=
  listHasSub pat.toList s.toList

/-- Python `int(x)` on a real value: truncation toward zero. -/
def pyTrunc (q : ℚ) : ℤ :=
  if 0 ≤ q then ⌊q⌋ else -⌊-q⌋

/-- Round a rational number to the nearest integer, ties to even. -/
def roundInt (x : ℚ) : ℤ :=
  if x - (⌊x⌋ : ℚ) < 1/2 then ⌊x⌋
  else if 1/2 < x - (⌊x⌋ : ℚ) then ⌊x⌋ + 1
  else if ⌊x⌋ % 2 = 0 then ⌊x⌋ else ⌊x⌋ + 1

/-- One correctly rounded conversion of a nonnegative rational value to IEEE-754
binary64 (round to nearest, ties to even, 53-bit significand, unbounded exponent
range — see the header note).  A positive `q` is scaled by the power of two that
puts it in `[2^52, 2^53)`, rounded to an integer significand, and scaled back. -/
def roundQ (q : ℚ) : ℚ :=
  if 0 < q then
    (roundInt (q * (2 : ℚ) ^ (-(Int.log 2 q - 52))) : ℚ) * (2 : ℚ) ^ (Int.log 2 q - 52)
  else 0

/-- Model of `int((failed / total) * 100)` (evaluation.py lines 46-47, 109-110,
169-170): binary64 division, binary64 multiplication by 100, truncation. -/
def pyRate (failed total : ℕ) : ℤ :=
  pyTrunc (roundQ (roundQ ((failed : ℚ) / (total : ℚ)) * 100))

/-- Whether a token counts as a mismatch for MFT (evaluation.py line 34:
`gold_label != "_" and gold_label != system_label`). -/
def tokenBad (gold sys : String) : Bool :=
  if gold = "_" then false else if gold = sys then false else true

/-- Mutable state of the MFT scorer loop (evaluation.py lines 12-16). -/
@[ext]
structure MftState where
  current_sentence_id : Option String
  sentence_labels_match : Bool
  total_sentences : Nat
  failed_sentences : Nat
  failed_sentence_ids : List String
deriving DecidableEq

/-- Initial MFT state (evaluation.py lines 12-16). -/
def mftInit : MftState :=
  ⟨none, true, 0, 0, []⟩

/-- One iteration of the MFT loop body (evaluation.py lines 18-44).  On a blank
line with a current sentence, the sentence is finalized: `total` is incremented,
and on a mismatch the failure is recorded; `matches` resets, `cur` is NOT reset
(lines 20-28).  On a row with the current sentence id, only `matches` can be
falsified (lines 33-35).  On a row with a new sentence id, a failure of the
previous sentence is recorded — without incrementing `total` — and the state
restarts on the new id (lines 36-44). -/
def mftStep (s : MftState) : Line → MftState
  | .blank =>
    match s.current_sentence_id with
    | none => s
    | some cid =>
      if s.sentence_labels_match then
        { s with total_sentences := s.total_sentences + 1, sentence_labels_match := true }
      else
        { s with total_sentences := s.total_sentences + 1,
                 failed_sentences := s.failed_sentences + 1,
                 failed_sentence_ids := s.failed_sentence_ids ++ [cid],
                 sentence_labels_match := true }
  | .row r =>
    if s.current_sentence_id = some r.sentence_id then
      if tokenBad r.gold_label r.system_label then
        { s with sentence_labels_match := false }
      else s
    else
      let s1 :=
        match s.current_sentence_id with
        | none => s
        | some cid =>
          if s.sentence_labels_match then s
          else { s with failed_sentences := s.failed_sentences + 1,
                        failed_sentence_ids := s.failed_sentence_ids ++ [cid] }
      { s1 with current_sentence_id := some r.sentence_id,
                sentence_labels_match := !(tokenBad r.gold_label r.system_label) }

/-- The full MFT reading loop (evaluation.py lines 18-44). -/
def mftRun (input : List Line) : MftState :=
  input.foldl mftStep mftInit

/-- `evaluate_mft` (evaluation.py lines 3-47).  After the loop the rate
`(failed_sentences / total_sentences) * 100` is computed unconditionally: with
zero counted sentences Python raises ZeroDivisionError. -/
def evaluate_mft (input : List Line) : Except PyErr (Int × List String) :=
  if (mftRun input).total_sentences = 0 then .error .zeroDivisionError
  else .ok (pyRate (mftRun input).failed_sentences (mftRun input).total_sentences,
            (mftRun input).failed_sentence_ids)

/-- Lookup in an association list (Python `key in dict` / `dict[key]`). -/
def lookupMap {α : Type} : List (String × α) → String → Option α
  | [], _ => none
  | (k, v) :: rest, key => if k = key then some v else lookupMap rest key

/-- Insert-or-update in an association list, keeping the first-insertion key
position and overwriting the value: Python dict assignment semantics, so a
repeated key has last write wins. -/
def upsert {α : Type} : List (String × α) → String → α → List (String × α)
  | [], k, v => [(k, v)]
  | (k0, v0) :: rest, k, v =>
    if k0 = k then (k0, v) :: rest else (k0, v0) :: upsert rest k v

/-- Build a Python dict from key-value pairs in order: the dict comprehensions
`{gold: system for ...}` (evaluation.py lines 94-95) and
`{token: (gold, system) for ...}` (lines 152-153). -/
def buildMap {α : Type} (l : List (String × α)) : List (String × α) :=
  l.foldl (fun m kv => upsert m kv.1 kv.2) []

/-- The last value assigned to a key in a pair list, if any. -/
def lastAssign {α : Type} : List (String × α) → String → Option α
  | [], _ => none
  | kv :: rest, k =>
    match lastAssign rest k with
    | some v => some v
    | none => if kv.1 = k then some kv.2 else none

/-- Lookup in an integer-keyed association list. -/
def lookupInt {α : Type} : List (Int × α) → Int → Option α
  | [], _ => none
  | (k, v) :: rest, key => if k = key then some v else lookupInt rest key

/-- Append a retained token to `sentences_data[id]`, initialising the key with
an empty list on first encounter (evaluation.py lines 74-79, 137-140). -/
def addTok {α : Type} : List (Int × List α) → Int → α → List (Int × List α)
  | [], i, x => [(i, [x])]
  | (k, l) :: rest, i, x =>
    if k = i then (k, l ++ [x]) :: rest else (k, l) :: addTok rest i x

/-- `sentences_data[ids[i]]` (evaluation.py lines 88-89, 147-148); the key is
always present when this is used. -/
def dataOf {α : Type} (data : List (Int × List α)) (i : Int) : List α :=
  (lookupInt data i).getD []

/-- Insert into an ascending list of integers. -/
def insSorted (x : Int) : List Int → List Int
  | [] => [x]
  | y :: ys => if x ≤ y then x :: y :: ys else y :: insSorted x ys

/-- Ascending sort, modelling Python `sorted(sentences_data.keys())`
(evaluation.py lines 81, 142); the keys are pairwise distinct. -/
def sortInts (l : List Int) : List Int :=
  l.foldr insSorted []

/-- The pair loop `for i in range(0, len(sentence_ids), 2)` accessing
`sentence_ids[i]` and `sentence_ids[i+1]` (evaluation.py lines 87-89, 146-148):
with an odd number of ids the final iteration indexes past the end and Python
raises IndexError. -/
def pairUp : List Int → Except PyErr (List (Int × Int))
  | [] => .ok []
  | [_] => .error .indexError
  | a :: b :: rest =>
    match pairUp rest with
    | .error e => .error e
    | .ok ps => .ok ((a, b) :: ps)

/-- Failed-pair identifier `f"{idA}-{idB}"` (evaluation.py lines 107, 167). -/
def fmtPair (a b : Int) : String :=
  toString a ++ "-" ++ toString b

/-- The shared reading loop of `evaluate_inv` / `evaluate_dir` (evaluation.py
lines 62-79 and 125-140): skip blank lines, convert the sentence id with
`int(...)` — raising ValueError on a non-numeric id before anything else —
then discard tokens with gold label `"_"` and append the projected token data
to `sentences_data[id]`. -/
def readRows {α : Type} (proj : Row → α) (acc : List (Int × List α)) :
    List Line → Except PyErr (List (Int × List α))
  | [] => .ok acc
  | .blank :: ls => readRows proj acc ls
  | .row r :: ls =>
    match pyInt r.sentence_id with
    | none => .error .valueError
    | some i =>
      if r.gold_label = "_" then readRows proj acc ls
      else readRows proj (addTok acc i (proj r)) ls

/-- Projection retained by `evaluate_inv`: `(gold_label, system_label)`
(evaluation.py line 79). -/
def projInv (r : Row) : String × String :=
  (r.gold_label, r.system_label)

/-- Projection retained by `evaluate_dir`: `(token, (gold_label, system_label))`
(evaluation.py line 140). -/
def projDir (r : Row) : String × String × String :=
  (r.token, r.gold_label, r.system_label)

/-- The INV per-pair check (evaluation.py lines 97-102): iterate the FIRST
sentence's retained token list `first_sentence_data` in file order — not the
dict `first_sentence_map`, which is built on line 94 but never read — and fail
on the first occurrence `(gold, system)` whose gold label is a key of the second
sentence's dict with a different system label there. -/
def invPairFailed (A : List (String × String)) (mB : List (String × String)) : Bool :=
  A.any (fun gs =>
    match lookupMap mB gs.1 with
    | some s2 => decide (gs.2 ≠ s2)
    | none => false)

/-- Verdict predicate of the spec's words for an INV pair (spec section 4.3):
there exists a gold label `g` present in `map_A` that is also present in
`map_B` with `map_A[g] != map_B[g]`.  Declared only to be compared with the
code's `invPairFailed`, which iterates the raw token list instead of `map_A`. -/
def invSpecPairFailed (mA mB : List (String × String)) : Bool :=
  mA.any (fun gs =>
    match lookupMap mB gs.1 with
    | some s2 => decide (gs.2 ≠ s2)
    | none => false)

/-- The DIR per-pair check (evaluation.py lines 156-163): iterate the first
sentence's dict `first_sentence_map.items()` and fail on a token that is also a
key of the second sentence's dict with an IDENTICAL system label there. -/
def dirPairFailed (mA mB : List (String × String × String)) : Bool :=
  mA.any (fun tgs =>
    match lookupMap mB tgs.1 with
    | some gs2 => decide (tgs.2.2 = gs2.2)
    | none => false)

/-- Verdict of one INV pair given the collected data (evaluation.py lines
87-102): the first sentence's raw retained list against the second sentence's
dict. -/
def invVerdict (data : List (Int × List (String × String))) (p : Int × Int) : Bool :=
  invPairFailed (dataOf data p.1) (buildMap (dataOf data p.2))

/-- Verdict of one DIR pair given the collected data (evaluation.py lines
146-163): the first sentence's dict against the second sentence's dict. -/
def dirVerdict (data : List (Int × List (String × String × String))) (p : Int × Int) : Bool :=
  dirPairFailed (buildMap (dataOf data p.1)) (buildMap (dataOf data p.2))

/-- `evaluate_inv` (evaluation.py lines 49-110): read and group retained tokens
by integer sentence id, sort the ids, walk them in consecutive pairs (IndexError
on an odd count), record failing pairs in order as `"idA-idB"`, and return
`int((failed_pairs / total_pairs) * 100)` — a ZeroDivisionError when there are
no pairs. -/
def evaluate_inv (input : List Line) : Except PyErr (Int × List String) :=
  match readRows projInv [] input with
  | .error e => .error e
  | .ok data =>
    match pairUp (sortInts (data.map Prod.fst)) with
    | .error e => .error e
    | .ok pairs =>
      if pairs.length = 0 then .error .zeroDivisionError
      else .ok (pyRate (pairs.filter (invVerdict data)).length pairs.length,
                (pairs.filter (invVerdict data)).map (fun p => fmtPair p.1 p.2))

/-- `evaluate_dir` (evaluation.py lines 112-170): as `evaluate_inv` but keyed by
token text with the inverted per-pair condition. -/
def evaluate_dir (input : List Line) : Except PyErr (Int × List String) :=
  match readRows projDir [] input with
  | .error e => .error e
  | .ok data =>
    match pairUp (sortInts (data.map Prod.fst)) with
    | .error e => .error e
    | .ok pairs =>
      if pairs.length = 0 then .error .zeroDivisionError
      else .ok (pyRate (pairs.filter (dirVerdict data)).length pairs.length,
                (pairs.filter (dirVerdict data)).map (fun p => fmtPair p.1 p.2))

/-- `evaluate_file` (evaluation.py lines 172-193): select the scorer by
substring of the file path, checking `'MFT'`, `'INV'`, `'DIR'` in that order.
When none matches, the code prints a warning but does not return: it falls
through to `print(f"Evaluation Type: {evaluation_type}")` on line 188 with
`evaluation_type` unbound, raising UnboundLocalError.  A scorer's exception
propagates out unhandled. -/
def evaluate_file (name : String) (content : List Line) :
    Except PyErr (String × Int × List String) :=
  if strHasSub name "MFT" then
    match evaluate_mft content with
    | .error e => .error e
    | .ok (rate, ids) => .ok ("MFT", rate, ids)
  else if strHasSub name "INV" then
    match evaluate_inv content with
    | .error e => .error e
    | .ok (rate, ids) => .ok ("INV", rate, ids)
  else if strHasSub name "DIR" then
    match evaluate_dir content with
    | .error e => .error e
    | .ok (rate, ids) => .ok ("DIR", rate, ids)
  else .error .unboundLocalError

/-- The batch loop of `main` (evaluation.py lines 196-210), abstracted over the
directory walk: each selected file is passed to `evaluate_file` in order.  There
is no try/except anywhere, so the first exception aborts the whole batch and the
remaining files are never evaluated. -/
def main : List (String × List Line) → Except PyErr (List (String × Int × List String))
  | [] => .ok []
  | (n, c) :: rest =>
    match evaluate_file n c with
    | .error e => .error e
    | .ok rep =>
      match main rest with
      | .error e => .error e
      | .ok reps => .ok (rep :: reps)

/-- Concatenation of a list-producing map (used to build test inputs). -/
def catMap {α β : Type} (f : α → List β) : List α → List β
  | [] => []
  | x :: xs => f x ++ catMap f xs

/-- Rows of one sentence for an MFT input built from `(sentence_id, tokens)`
with tokens given as `(gold_label, system_label)` pairs; `token_id` and `token`
are irrelevant to the MFT scorer. -/
def sentRows (s : String × List (String × String)) : List Line :=
  s.2.map (fun gs => .row ⟨s.1, "", "", gs.1, gs.2⟩)

/-- A blank-terminated MFT input: each sentence's rows followed by one blank
line (the tabular format of spec section 6, with the trailing blank present). -/
def render (S : List (String × List (String × String))) : List Line :=
  catMap (fun s => sentRows s ++ [Line.blank]) S

/-- Whether a sentence contains an MFT mismatch. -/
def badSent (s : String × List (String × String)) : Bool :=
  s.2.any (fun gs => tokenBad gs.1 gs.2)

/-- Rename the sentence ids of an input through `f`. -/
def relabelLine (f : String → String) : Line → Line
  | .blank => .blank
  | .row r => .row { r with sentence_id := f r.sentence_id }

/-- Rename the sentence ids stored in an MFT scorer state through `f`. -/
def relabelState (f : String → String) (s : MftState) : MftState :=
  { s with current_sentence_id := s.current_sentence_id.map f,
           failed_sentence_ids := s.failed_sentence_ids.map f }

deriving instance DecidableEq for Except

set_option maxRecDepth 8000

/-! ### Properties of the binary64 rounding model -/

/-- Characterisation of `Int.log 2` by a power-of-two sandwich. -/
theorem intLog2_eq (q : ℚ) (L : ℤ) (hq : 0 < q) (h1 : (2:ℚ) ^ L ≤ q)
    (h2 : q < (2:ℚ) ^ (L + 1)) : Int.log 2 q = L := by
  have hcast : ((2:ℕ):ℚ) = (2:ℚ) := by norm_num
  have hle : L ≤ Int.log 2 q := by
    rw [← Int.zpow_le_iff_le_log (by norm_num) hq, hcast]
    exact h1
  have hlt : Int.log 2 q < L + 1 := by
    rw [← Int.lt_zpow_iff_log_lt (by norm_num) hq, hcast]
    exact h2
  omega

/-- Rounding to the nearest integer never exceeds an integer upper bound. -/
theorem roundInt_le (x : ℚ) (k : ℤ) (h : x ≤ (k:ℚ)) : roundInt x ≤ k := by
  have hfl : ⌊x⌋ ≤ k := by
    have := Int.floor_mono h
    rwa [Int.floor_intCast] at this
  have hup : (⌊x⌋ : ℚ) + 1/2 ≤ x → ⌊x⌋ + 1 ≤ k := by
    intro hx
    have h1 : (⌊x⌋ : ℚ) < (k : ℚ) := by linarith
    have h2 : ⌊x⌋ < k := by exact_mod_cast h1
    omega
  unfold roundInt
  by_cases hA : x - (⌊x⌋ : ℚ) < 1/2
  · rw [if_pos hA]; exact hfl
  · rw [if_neg hA]
    by_cases hB : 1/2 < x - (⌊x⌋ : ℚ)
    · rw [if_pos hB]
      exact hup (by linarith)
    · rw [if_neg hB]
      by_cases hC : ⌊x⌋ % 2 = 0
      · rw [if_pos hC]; exact hfl
      · rw [if_neg hC]
        exact hup (by linarith [not_lt.mp hA])

/-- Rounding to the nearest integer preserves nonnegativity. -/
theorem roundInt_nonneg (x : ℚ) (h : 0 ≤ x) : 0 ≤ roundInt x := by
  have h0 : 0 ≤ ⌊x⌋ := Int.floor_nonneg.mpr h
  unfold roundInt
  by_cases hA : x - (⌊x⌋ : ℚ) < 1/2
  · rw [if_pos hA]; exact h0
  · rw [if_neg hA]
    by_cases hB : 1/2 < x - (⌊x⌋ : ℚ)
    · rw [if_pos hB]; omega
    · rw [if_neg hB]
      by_cases hC : ⌊x⌋ % 2 = 0
      · rw [if_pos hC]; exact h0
      · rw [if_neg hC]; omega

/-- Value of `roundInt` when the fraction is below one half. -/
theorem roundInt_eq (x : ℚ) (n0 : ℤ) (h1 : (n0:ℚ) ≤ x) (h2 : x < (n0:ℚ) + 1/2) :
    roundInt x = n0 := by
  have hfl : ⌊x⌋ = n0 := Int.floor_eq_iff.mpr ⟨h1, by linarith⟩
  unfold roundInt
  rw [hfl, if_pos (by linarith)]

/-- The rounding model never produces a negative value. -/
theorem roundQ_nonneg (q : ℚ) : 0 ≤ roundQ q := by
  unfold roundQ
  by_cases hq : 0 < q
  · rw [if_pos hq]
    have hx : (0:ℚ) ≤ q * (2:ℚ) ^ (-(Int.log 2 q - 52)) := by positivity
    exact mul_nonneg (by exact_mod_cast roundInt_nonneg _ hx)
      (le_of_lt (zpow_pos (by norm_num) _))
  · rw [if_neg hq]

/-- Rounding of zero. -/
theorem roundQ_zero : roundQ 0 = 0 := by
  simp [roundQ]

/-- Rounding a positive value respects an upper bound that is an integer
multiple of the value's ulp. -/
theorem roundQ_le (q : ℚ) (k : ℤ) (hq : 0 < q)
    (h : q ≤ (k:ℚ) * (2:ℚ) ^ (Int.log 2 q - 52)) :
    roundQ q ≤ (k:ℚ) * (2:ℚ) ^ (Int.log 2 q - 52) := by
  unfold roundQ
  rw [if_pos hq]
  have hpow : (0:ℚ) < (2:ℚ) ^ (Int.log 2 q - 52) := zpow_pos (by norm_num) _
  have hpow' : (0:ℚ) < (2:ℚ) ^ (-(Int.log 2 q - 52)) := zpow_pos (by norm_num) _
  have hx : q * (2:ℚ) ^ (-(Int.log 2 q - 52)) ≤ (k:ℚ) := by
    have h2 := mul_le_mul_of_nonneg_right h (le_of_lt hpow')
    have h3 : (k:ℚ) * (2:ℚ) ^ (Int.log 2 q - 52) * (2:ℚ) ^ (-(Int.log 2 q - 52)) = k := by
      rw [mul_assoc, ← zpow_add₀ (by norm_num : (2:ℚ) ≠ 0)]
      norm_num
    rwa [h3] at h2
  have h4 := roundInt_le _ k hx
  exact mul_le_mul_of_nonneg_right (by exact_mod_cast h4) (le_of_lt hpow)

/-- Evaluation rule for `roundQ` at a value whose scaled fraction lies below one
half: `L` is the binary exponent, `n0` the significand. -/
theorem roundQ_eq (q : ℚ) (L n0 : ℤ) (hq : 0 < q)
    (h1 : (2:ℚ) ^ L ≤ q) (h2 : q < (2:ℚ) ^ (L + 1))
    (hfl : (n0:ℚ) ≤ q * (2:ℚ) ^ (52 - L)) (hfr : q * (2:ℚ) ^ (52 - L) < (n0:ℚ) + 1/2) :
    roundQ q = (n0:ℚ) * (2:ℚ) ^ (L - 52) := by
  have hlog := intLog2_eq q L hq h1 h2
  unfold roundQ
  rw [if_pos hq, hlog, show -(L - 52) = 52 - L by ring, roundInt_eq _ n0 hfl hfr]

/-- Truncation of a nonnegative value is its floor. -/
theorem pyTrunc_of_nonneg (q : ℚ) (h : 0 ≤ q) : pyTrunc q = ⌊q⌋ := by
  unfold pyTrunc
  rw [if_pos h]

/-- Rate with zero failures is exactly 0. -/
theorem pyRate_zero (t : ℕ) : pyRate 0 t = 0 := by
  unfold pyRate
  rw [Nat.cast_zero, zero_div, roundQ_zero, zero_mul, roundQ_zero]
  simp [pyTrunc]

/-- Rate of 1 failure out of 1: every step is exact, the result is 100. -/
theorem pyRate_one_one : pyRate 1 1 = 100 := by
  unfold pyRate
  rw [Nat.cast_one, div_one]
  have e1 : roundQ 1 = (4503599627370496:ℚ) * (2:ℚ) ^ ((0:ℤ) - 52) :=
    roundQ_eq 1 0 4503599627370496 (by norm_num) (by norm_num) (by norm_num)
      (by norm_num) (by norm_num)
  have e1' : roundQ 1 = 1 := by rw [e1]; norm_num
  rw [e1', one_mul]
  have e2 : roundQ 100 = (7036874417766400:ℚ) * (2:ℚ) ^ ((6:ℤ) - 52) :=
    roundQ_eq 100 6 7036874417766400 (by norm_num) (by norm_num) (by norm_num)
      (by norm_num) (by norm_num)
  have e2' : roundQ 100 = 100 := by rw [e2]; norm_num
  rw [e2', pyTrunc_of_nonneg _ (by norm_num)]
  norm_num

/-- Rate of 2 failures out of 1 counted sentence: every step is exact, and the
result 200 exceeds 100. -/
theorem pyRate_two_one : pyRate 2 1 = 200 := by
  unfold pyRate
  rw [Nat.cast_one, div_one]
  have e1 : roundQ 2 = (4503599627370496:ℚ) * (2:ℚ) ^ ((1:ℤ) - 52) :=
    roundQ_eq 2 1 4503599627370496 (by norm_num) (by norm_num) (by norm_num)
      (by norm_num) (by norm_num)
  have e1' : roundQ ((2:ℕ):ℚ) = 2 := by
    rw [show ((2:ℕ):ℚ) = 2 by norm_num, e1]; norm_num
  rw [e1']
  have e2 : roundQ 200 = (7036874417766400:ℚ) * (2:ℚ) ^ ((7:ℤ) - 52) :=
    roundQ_eq 200 7 7036874417766400 (by norm_num) (by norm_num) (by norm_num)
      (by norm_num) (by norm_num)
  have e2' : roundQ (2 * 100) = 200 := by
    rw [show ((2:ℚ) * 100) = 200 by norm_num, e2]; norm_num
  rw [e2', pyTrunc_of_nonneg _ (by norm_num)]
  norm_num

/-- Rate of 29 failures out of 100: binary64 double rounding yields 28, one
below `floor(100 * 29 / 100) = 29`.  This reproduces Python
`int(29/100*100) == 28`. -/
theorem pyRate_29_100 : pyRate 29 100 = 28 := by
  unfold pyRate
  have hq : ((29:ℕ):ℚ) / ((100:ℕ):ℚ) = 29/100 := by norm_num
  rw [hq]
  have e1 : roundQ (29/100) = (5224175567749775:ℚ) * (2:ℚ) ^ ((-2:ℤ) - 52) :=
    roundQ_eq (29/100) (-2) 5224175567749775 (by norm_num) (by norm_num) (by norm_num)
      (by norm_num) (by norm_num)
  rw [e1]
  have harg : (5224175567749775:ℚ) * (2:ℚ) ^ ((-2:ℤ) - 52) * 100
      = 522417556774977500 * (2:ℚ) ^ (-54:ℤ) := by
    rw [show ((-2:ℤ) - 52) = (-54:ℤ) by norm_num]
    ring
  rw [harg]
  have e2 : roundQ (522417556774977500 * (2:ℚ) ^ (-54:ℤ))
      = (8162774324609023:ℚ) * (2:ℚ) ^ ((4:ℤ) - 52) := by
    refine roundQ_eq _ 4 8162774324609023 (by positivity) ?_ ?_ ?_ ?_
    · rw [show ((4:ℤ)) = (4:ℤ) from rfl]
      norm_num
    · norm_num
    · norm_num
    · norm_num
  rw [e2, pyTrunc_of_nonneg _ (by positivity)]
  rw [Int.floor_eq_iff]
  constructor
  · norm_num
  · norm_num

/-- With `failed ≤ total` and `total > 0` the modelled rate lies in `[0, 100]`:
the binary64 quotient is at most 1 because 1 is representable, the product is at
most 100 because 100 is an integer multiple of the product's ulp, and truncation
preserves both bounds. -/
theorem pyRate_bounds (f t : ℕ) (hft : f ≤ t) (ht : 0 < t) :
    0 ≤ pyRate f t ∧ pyRate f t ≤ 100 := by
  unfold pyRate
  rcases Nat.eq_zero_or_pos f with hf | hf
  · subst hf
    rw [Nat.cast_zero, zero_div, roundQ_zero, zero_mul, roundQ_zero]
    simp [pyTrunc]
  · have htQ : (0:ℚ) < (t:ℚ) := by exact_mod_cast ht
    have hq : (0:ℚ) < (f:ℚ) / (t:ℚ) := div_pos (by exact_mod_cast hf) htQ
    have hq1 : (f:ℚ) / (t:ℚ) ≤ 1 := by
      rw [div_le_one htQ]
      exact_mod_cast hft
    have hlogq : Int.log 2 ((f:ℚ) / (t:ℚ)) ≤ 0 := by
      have := Int.log_mono_right (b := 2) hq hq1
      rwa [Int.log_one_right] at this
    have hone : (((2:ℤ) ^ (52 - Int.log 2 ((f:ℚ) / (t:ℚ))).toNat : ℤ) : ℚ)
        * (2:ℚ) ^ (Int.log 2 ((f:ℚ) / (t:ℚ)) - 52) = 1 := by
      have ht' : (((52 - Int.log 2 ((f:ℚ) / (t:ℚ))).toNat : ℕ) : ℤ)
          = 52 - Int.log 2 ((f:ℚ) / (t:ℚ)) := Int.toNat_of_nonneg (by omega)
      push_cast
      rw [← zpow_natCast (2:ℚ), ht', ← zpow_add₀ (by norm_num : (2:ℚ) ≠ 0),
        show 52 - Int.log 2 ((f:ℚ) / (t:ℚ)) + (Int.log 2 ((f:ℚ) / (t:ℚ)) - 52) = 0 by ring,
        zpow_zero]
    have hx_le : roundQ ((f:ℚ) / (t:ℚ)) ≤ 1 := by
      have h := roundQ_le ((f:ℚ) / (t:ℚ)) ((2:ℤ) ^ (52 - Int.log 2 ((f:ℚ) / (t:ℚ))).toNat)
        hq (by rw [hone]; exact hq1)
      rwa [hone] at h
    have hx0 : 0 ≤ roundQ ((f:ℚ) / (t:ℚ)) := roundQ_nonneg _
    have hp0 : (0:ℚ) ≤ roundQ ((f:ℚ) / (t:ℚ)) * 100 := by positivity
    have hp100 : roundQ ((f:ℚ) / (t:ℚ)) * 100 ≤ 100 := by nlinarith
    by_cases hpp : 0 < roundQ ((f:ℚ) / (t:ℚ)) * 100
    · have hlogp : Int.log 2 (roundQ ((f:ℚ) / (t:ℚ)) * 100) ≤ 7 := by
        have h128 : Int.log 2 (128:ℚ) = 7 := by
          rw [show (128:ℚ) = ((128:ℕ):ℚ) by norm_num, Int.log_natCast,
            show Nat.log 2 128 = 7 from
              Nat.log_eq_of_pow_le_of_lt_pow (by norm_num) (by norm_num)]
          norm_num
        have := Int.log_mono_right (b := 2) hpp
          (by linarith : roundQ ((f:ℚ) / (t:ℚ)) * 100 ≤ (128:ℚ))
        rwa [h128] at this
      have hone2 : ((100 * (2:ℤ) ^ (52 - Int.log 2 (roundQ ((f:ℚ) / (t:ℚ)) * 100)).toNat : ℤ) : ℚ)
          * (2:ℚ) ^ (Int.log 2 (roundQ ((f:ℚ) / (t:ℚ)) * 100) - 52) = 100 := by
        have ht' : (((52 - Int.log 2 (roundQ ((f:ℚ) / (t:ℚ)) * 100)).toNat : ℕ) : ℤ)
            = 52 - Int.log 2 (roundQ ((f:ℚ) / (t:ℚ)) * 100) := Int.toNat_of_nonneg (by omega)
        push_cast
        rw [← zpow_natCast (2:ℚ), ht', mul_assoc,
          ← zpow_add₀ (by norm_num : (2:ℚ) ≠ 0),
          show 52 - Int.log 2 (roundQ ((f:ℚ) / (t:ℚ)) * 100)
              + (Int.log 2 (roundQ ((f:ℚ) / (t:ℚ)) * 100) - 52) = 0 by ring,
          zpow_zero, mul_one]
      have hy_le : roundQ (roundQ ((f:ℚ) / (t:ℚ)) * 100) ≤ 100 := by
        have h := roundQ_le (roundQ ((f:ℚ) / (t:ℚ)) * 100)
          (100 * (2:ℤ) ^ (52 - Int.log 2 (roundQ ((f:ℚ) / (t:ℚ)) * 100)).toNat)
          hpp (by rw [hone2]; exact hp100)
        rwa [hone2] at h
      have hy0 : 0 ≤ roundQ (roundQ ((f:ℚ) / (t:ℚ)) * 100) := roundQ_nonneg _
      rw [pyTrunc_of_nonneg _ hy0]
      constructor
      · exact Int.floor_nonneg.mpr hy0
      · have := Int.floor_mono hy_le
        rwa [show ⌊(100:ℚ)⌋ = 100 by norm_num] at this
    · have hz : roundQ ((f:ℚ) / (t:ℚ)) * 100 = 0 := le_antisymm (not_lt.mp hpp) hp0
      rw [hz, roundQ_zero]
      simp [pyTrunc]

/-! ### Properties of the dict model -/

/-- Pairwise-distinct keys, the invariant of every Python dict. -/
def nodupKeys {α : Type} (m : List (String × α)) : Prop :=
  (m.map Prod.fst).Nodup

/-- A successful lookup result is a member of the association list. -/
theorem lookupMap_mem {α : Type} (m : List (String × α)) (k : String) (v : α)
    (h : lookupMap m k = some v) : (k, v) ∈ m := by
  induction m with
  | nil => simp [lookupMap] at h
  | cons kv rest ih =>
    obtain ⟨k0, v0⟩ := kv
    by_cases hk : k0 = k
    · subst hk
      rw [lookupMap, if_pos rfl] at h
      obtain rfl := Option.some.inj h
      exact List.mem_cons_self _ _
    · rw [lookupMap, if_neg hk] at h
      exact List.mem_cons_of_mem _ (ih h)

/-- Under distinct keys, membership determines the lookup result. -/
theorem lookupMap_of_mem_nodup {α : Type} (m : List (String × α)) (k : String) (v : α)
    (hnd : nodupKeys m) (h : (k, v) ∈ m) : lookupMap m k = some v := by
  induction m with
  | nil => simp at h
  | cons kv rest ih =>
    obtain ⟨k0, v0⟩ := kv
    rcases List.mem_cons.mp h with heq | hmem
    · injection heq with h1 h2
      subst h1
      subst h2
      simp [lookupMap]
    · have hk : k0 ≠ k := by
        intro hk
        subst hk
        have : k0 ∈ rest.map Prod.fst := List.mem_map.mpr ⟨(k0, v), hmem, rfl⟩
        exact (List.nodup_cons.mp hnd).1 this
      rw [lookupMap, if_neg hk]
      exact ih (List.nodup_cons.mp hnd).2 hmem

/-- Key membership after an upsert. -/
theorem upsert_keys {α : Type} (m : List (String × α)) (k : String) (v : α) (x : String) :
    x ∈ (upsert m k v).map Prod.fst ↔ x ∈ m.map Prod.fst ∨ x = k := by
  induction m with
  | nil => simp [upsert]
  | cons kv rest ih =>
    obtain ⟨k0, v0⟩ := kv
    by_cases hk : k0 = k
    · subst hk
      simp [upsert]
      tauto
    · simp only [upsert, if_neg hk, List.map_cons, List.mem_cons, ih]
      tauto

/-- Upserting preserves distinctness of keys. -/
theorem upsert_nodupKeys {α : Type} (m : List (String × α)) (k : String) (v : α)
    (hnd : nodupKeys m) : nodupKeys (upsert m k v) := by
  induction m with
  | nil => simp [upsert, nodupKeys]
  | cons kv rest ih =>
    obtain ⟨k0, v0⟩ := kv
    obtain ⟨hni, hnd'⟩ := List.nodup_cons.mp hnd
    by_cases hk : k0 = k
    · subst hk
      simpa [upsert, nodupKeys] using hnd
    · have := ih hnd'
      simp only [upsert, if_neg hk, nodupKeys, List.map_cons, List.nodup_cons]
      refine ⟨fun hmem => ?_, this⟩
      rcases (upsert_keys rest k v k0).mp hmem with h | h
      · exact hni h
      · exact hk h

/-- Every built dict has distinct keys. -/
theorem buildMap_nodupKeys {α : Type} (l : List (String × α)) : nodupKeys (buildMap l) := by
  have main : ∀ (l : List (String × α)) (m0 : List (String × α)), nodupKeys m0 →
      nodupKeys (l.foldl (fun m kv => upsert m kv.1 kv.2) m0) := by
    intro l
    induction l with
    | nil => intro m0 h; exact h
    | cons kv rest ih =>
      intro m0 h
      exact ih _ (upsert_nodupKeys m0 kv.1 kv.2 h)
  exact main l [] (by simp [nodupKeys])

/-- Lookup after an upsert. -/
theorem lookupMap_upsert {α : Type} (m : List (String × α)) (k : String) (v : α)
    (x : String) :
    lookupMap (upsert m k v) x = if k = x then some v else lookupMap m x := by
  induction m with
  | nil => simp [upsert, lookupMap]
  | cons kv rest ih =>
    obtain ⟨k0, v0⟩ := kv
    by_cases hk : k0 = k
    · subst hk
      by_cases hx : k0 = x
      · subst hx
        simp [upsert, lookupMap]
      · simp [upsert, lookupMap, hx]
    · by_cases hx : k0 = x
      · subst hx
        have hkx : ¬k = k0 := fun h => hk h.symm
        simp [upsert, hk, lookupMap, hkx]
      · simp [upsert, hk, lookupMap, hx, ih]

/-- Lookup in a built dict returns the last value assigned to the key. -/
theorem lookupMap_buildMap {α : Type} (l : List (String × α)) (k : String) :
    lookupMap (buildMap l) k = lastAssign l k := by
  have main : ∀ (l : List (String × α)) (m0 : List (String × α)),
      lookupMap (l.foldl (fun m kv => upsert m kv.1 kv.2) m0) k
        = match lastAssign l k with
          | some v => some v
          | none => lookupMap m0 k := by
    intro l
    induction l with
    | nil => intro m0; simp [lastAssign]
    | cons kv rest ih =>
      intro m0
      rw [List.foldl_cons, ih (upsert m0 kv.1 kv.2)]
      rcases h : lastAssign rest k with _ | v
      · simp only [lastAssign, h, lookupMap_upsert]
        by_cases hk : kv.1 = k <;> simp [hk]
      · simp [lastAssign, h]
  rw [buildMap, main l []]
  rcases h : lastAssign l k with _ | v <;> simp [lookupMap]

/-- A key has no last assignment exactly when it never occurs. -/
theorem lastAssign_eq_none_iff {α : Type} (l : List (String × α)) (k : String) :
    lastAssign l k = none ↔ k ∉ l.map Prod.fst := by
  induction l with
  | nil => simp [lastAssign]
  | cons kv rest ih =>
    simp only [lastAssign, List.map_cons, List.mem_cons]
    rcases h : lastAssign rest k with _ | v
    · by_cases hk : kv.1 = k
      · simp [hk, ih.mp h]
      · simp [hk, ih.mp h]
        exact fun hc => hk hc.symm
    · have : k ∈ rest.map Prod.fst := by
        by_contra hc
        rw [← ih] at hc
        rw [h] at hc
        exact Option.noConfusion hc
      simp [this]

/-! ### Properties of the MFT scorer -/

/-- Folding the rows of one sentence whose id is already current only
accumulates mismatches into `sentence_labels_match`. -/
theorem mftRows_same (toks : List (String × String)) (sid : String) (s : MftState)
    (h : s.current_sentence_id = some sid) :
    List.foldl mftStep s (sentRows (sid, toks))
      = { s with sentence_labels_match :=
            s.sentence_labels_match && !(toks.any (fun gs => tokenBad gs.1 gs.2)) } := by
  induction toks generalizing s with
  | nil =>
    simp [sentRows]
  | cons gs ts ih =>
    simp only [sentRows, List.map_cons, List.foldl_cons]
    by_cases hb : tokenBad gs.1 gs.2
    · have hstep : mftStep s (.row ⟨sid, "", "", gs.1, gs.2⟩)
          = { s with sentence_labels_match := false } := by
        simp [mftStep, h, hb]
      rw [hstep]
      have hrec := ih { s with sentence_labels_match := false } (by simpa using h)
      simp only [sentRows] at hrec
      rw [hrec]
      simp [hb]
    · have hstep : mftStep s (.row ⟨sid, "", "", gs.1, gs.2⟩) = s := by
        simp [mftStep, h, hb]
      rw [hstep]
      have hrec := ih s h
      simp only [sentRows] at hrec
      rw [hrec]
      simp [hb]

/-- Folding the rows of one nonempty sentence from a state with the match flag
set: the state moves onto this sentence id and records exactly its mismatch
status; no counter changes. -/
theorem mftBlock (sid : String) (t0 : String × String) (ts : List (String × String))
    (s : MftState) (hm : s.sentence_labels_match = true) :
    List.foldl mftStep s (sentRows (sid, t0 :: ts))
      = { s with current_sentence_id := some sid,
                 sentence_labels_match :=
                   !((t0 :: ts).any (fun gs => tokenBad gs.1 gs.2)) } := by
  by_cases hc : s.current_sentence_id = some sid
  · rw [mftRows_same (t0 :: ts) sid s hc, hm]
    ext <;> simp [hc]
  · simp only [sentRows, List.map_cons, List.foldl_cons]
    have hstep : mftStep s (.row ⟨sid, "", "", t0.1, t0.2⟩)
        = { s with current_sentence_id := some sid,
                   sentence_labels_match := !(tokenBad t0.1 t0.2) } := by
      rcases hcc : s.current_sentence_id with _ | cid
      · simp [mftStep, hcc, hm]
      · rw [hcc] at hc
        simp [mftStep, hcc, hc, hm]
    rw [hstep]
    have hrec := mftRows_same ts sid
      { s with current_sentence_id := some sid,
               sentence_labels_match := !(tokenBad t0.1 t0.2) } (by simp)
    simp only [sentRows] at hrec
    rw [hrec]
    simp [Bool.and_comm]

/-- Folding a blank-terminated rendered input: every sentence is finalized at
its blank line, so the totals, failures and failed ids are exactly the
per-sentence counts, in file order. -/
theorem mftRender (S : List (String × List (String × String))) (s : MftState)
    (hm : s.sentence_labels_match = true) (hne : ∀ p ∈ S, p.2 ≠ []) :
    List.foldl mftStep s (render S)
      = { s with
          current_sentence_id := S.foldl (fun _ p => some p.1) s.current_sentence_id,
          sentence_labels_match := true,
          total_sentences := s.total_sentences + S.length,
          failed_sentences := s.failed_sentences + (S.filter badSent).length,
          failed_sentence_ids := s.failed_sentence_ids ++ (S.filter badSent).map Prod.fst } := by
  induction S generalizing s with
  | nil =>
    simp only [render, catMap, List.foldl_nil, List.filter_nil, List.length_nil,
      List.map_nil, List.append_nil, Nat.add_zero]
    ext <;> simp [hm]
  | cons p Sp ih =>
    obtain ⟨sid, toks⟩ := p
    rcases toks with _ | ⟨t0, ts⟩
    · exact absurd rfl (hne (sid, []) (List.mem_cons_self _ _))
    · have hrender : render ((sid, t0 :: ts) :: Sp)
          = (sentRows (sid, t0 :: ts) ++ [Line.blank]) ++ render Sp := by
        simp [render, catMap]
      rw [hrender, List.foldl_append, List.foldl_append]
      rw [mftBlock sid t0 ts s hm]
      set b : Bool := (t0 :: ts).any (fun gs => tokenBad gs.1 gs.2) with hb
      have hblank : mftStep
          { s with current_sentence_id := some sid, sentence_labels_match := !b }
          Line.blank
          = { s with current_sentence_id := some sid,
                     sentence_labels_match := true,
                     total_sentences := s.total_sentences + 1,
                     failed_sentences := s.failed_sentences + (if b then 1 else 0),
                     failed_sentence_ids :=
                       s.failed_sentence_ids ++ (if b then [sid] else []) } := by
        cases hbv : b
        · simp [mftStep]
        · simp [mftStep]
      rw [show ∀ s1 : MftState, List.foldl mftStep s1 [Line.blank] = mftStep s1 Line.blank
        from fun s1 => rfl]
      rw [hblank]
      rw [ih _ (by simp) (fun q hq => hne q (List.mem_cons_of_mem _ hq))]
      have hfilter : List.filter badSent ((sid, t0 :: ts) :: Sp)
          = (if b then [(sid, t0 :: ts)] else []) ++ List.filter badSent Sp := by
        cases hbv : b
        · simp [List.filter_cons, badSent, hb ▸ hbv]
        · simp [List.filter_cons, badSent, hb ▸ hbv]
      rw [hfilter]
      cases hbv : b
      · ext <;> (simp [List.foldl_cons]; try omega)
      · ext <;> (simp [List.foldl_cons]; try omega)

/-- Invariant argument for fully matching sentences: if every row of the input
carrying a given sentence id is a match (or gold `"_"`), that id is never
appended to the failed list, whatever the rest of the input does. -/
theorem mftFold_goodId (id : String) :
    ∀ (input : List Line),
      (∀ r : Row, Line.row r ∈ input → r.sentence_id = id →
        tokenBad r.gold_label r.system_label = false) →
      ∀ s : MftState, id ∉ s.failed_sentence_ids →
        (s.current_sentence_id = some id → s.sentence_labels_match = true) →
        id ∉ (List.foldl mftStep s input).failed_sentence_ids := by
  intro input
  induction input with
  | nil =>
    intro _ s h1 _
    exact h1
  | cons l ls ih =>
    intro hgood s h1 h2
    have hgood' : ∀ r : Row, Line.row r ∈ ls → r.sentence_id = id →
        tokenBad r.gold_label r.system_label = false :=
      fun r hm => hgood r (List.mem_cons_of_mem _ hm)
    rw [List.foldl_cons]
    cases l with
    | blank =>
      refine ih hgood' (mftStep s .blank) ?_ ?_
      · rcases hcc : s.current_sentence_id with _ | cid
        · simpa [mftStep, hcc] using h1
        · by_cases hmv : s.sentence_labels_match
          · simpa [mftStep, hcc, hmv] using h1
          · have hcid : cid ≠ id := fun hcid => hmv (h2 (hcid ▸ hcc))
            have hne2 : ¬id = cid := fun hcd => hcid hcd.symm
            simp [mftStep, hcc, hmv, h1, hne2]
      · intro hcur
        rcases hcc : s.current_sentence_id with _ | cid
        · have hs : mftStep s Line.blank = s := by simp [mftStep, hcc]
          rw [hs, hcc] at hcur
          exact absurd hcur (by simp)
        · by_cases hmv : s.sentence_labels_match <;> simp [mftStep, hcc, hmv]
    | row r =>
      refine ih hgood' (mftStep s (.row r)) ?_ ?_
      · rcases hcc : s.current_sentence_id with _ | cid
        · by_cases hbv : tokenBad r.gold_label r.system_label <;>
            simpa [mftStep, hcc, hbv] using h1
        · by_cases hc : cid = r.sentence_id
          · by_cases hbv : tokenBad r.gold_label r.system_label <;>
              simpa [mftStep, hcc, hc, hbv] using h1
          · by_cases hmv : s.sentence_labels_match
            · by_cases hbv : tokenBad r.gold_label r.system_label <;>
                simpa [mftStep, hcc, hc, hmv, hbv] using h1
            · have hcid : cid ≠ id := fun hcid => hmv (h2 (hcid ▸ hcc))
              have hne2 : ¬id = cid := fun hcd => hcid hcd.symm
              by_cases hbv : tokenBad r.gold_label r.system_label <;>
                simp [mftStep, hcc, hc, hmv, hbv, h1, hne2]
      · intro hcur
        rcases hcc : s.current_sentence_id with _ | cid
        · have hrid : r.sentence_id = id := by
            have hs : (mftStep s (Line.row r)).current_sentence_id = some r.sentence_id := by
              simp [mftStep, hcc]
            rw [hs] at hcur
            exact Option.some.inj hcur
          have hbv := hgood r (List.mem_cons_self _ _) hrid
          simp [mftStep, hcc, hbv]
        · by_cases hc : cid = r.sentence_id
          · have hrid : r.sentence_id = id := by
              have hs : (mftStep s (Line.row r)).current_sentence_id = some cid := by
                by_cases hbv : tokenBad r.gold_label r.system_label <;>
                  simp [mftStep, hcc, hc, hbv]
              rw [hs] at hcur
              rw [← hc]
              exact Option.some.inj hcur
            have hbv := hgood r (List.mem_cons_self _ _) hrid
            have hmv : s.sentence_labels_match = true := h2 (by rw [hcc, hc, hrid])
            simp [mftStep, hcc, hc, hbv, hmv]
          · have hrid : r.sentence_id = id := by
              have hs : (mftStep s (Line.row r)).current_sentence_id = some r.sentence_id := by
                by_cases hmv : s.sentence_labels_match <;>
                  by_cases hbv : tokenBad r.gold_label r.system_label <;>
                  simp [mftStep, hcc, hc, hmv, hbv]
              rw [hs] at hcur
              exact Option.some.inj hcur
            have hbv := hgood r (List.mem_cons_self _ _) hrid
            by_cases hmv : s.sentence_labels_match <;>
              simp [mftStep, hcc, hc, hmv, hbv]

/-- One MFT step commutes with an injective renaming of sentence ids: the
scorer only ever compares ids for equality. -/
theorem mftStep_relabel (f : String → String) (hf : Function.Injective f)
    (s : MftState) (l : Line) :
    mftStep (relabelState f s) (relabelLine f l) = relabelState f (mftStep s l) := by
  cases l with
  | blank =>
    rcases hcc : s.current_sentence_id with _ | cid
    · simp [mftStep, relabelState, relabelLine, hcc]
    · by_cases hmv : s.sentence_labels_match <;>
        simp [mftStep, relabelState, relabelLine, hcc, hmv]
  | row r =>
    rcases hcc : s.current_sentence_id with _ | cid
    · by_cases hbv : tokenBad r.gold_label r.system_label <;>
        simp [mftStep, relabelState, relabelLine, hcc, hbv]
    · by_cases hc : cid = r.sentence_id
      · subst hc
        by_cases hbv : tokenBad r.gold_label r.system_label <;>
          simp [mftStep, relabelState, relabelLine, hcc, hbv]
      · have hfc : ¬f cid = f r.sentence_id := fun h => hc (hf h)
        by_cases hmv : s.sentence_labels_match <;>
          by_cases hbv : tokenBad r.gold_label r.system_label <;>
          simp [mftStep, relabelState, relabelLine, hcc, hc, hfc, hmv, hbv]

/-- The whole MFT fold commutes with an injective renaming of sentence ids. -/
theorem mftFold_relabel (f : String → String) (hf : Function.Injective f) :
    ∀ (input : List Line) (s : MftState),
      List.foldl mftStep (relabelState f s) (input.map (relabelLine f))
        = relabelState f (List.foldl mftStep s input) := by
  intro input
  induction input with
  | nil => intro s; rfl
  | cons l ls ih =>
    intro s
    rw [List.map_cons, List.foldl_cons, List.foldl_cons, mftStep_relabel f hf, ih]

/-- The MFT scorer is invariant under an injective renaming of sentence ids. -/
theorem mftRun_relabel (f : String → String) (hf : Function.Injective f)
    (input : List Line) :
    mftRun (input.map (relabelLine f)) = relabelState f (mftRun input) := by
  have hinit : relabelState f mftInit = mftInit := by
    simp [relabelState, mftInit]
  rw [mftRun, mftRun]
  nth_rewrite 1 [← hinit]
  rw [mftFold_relabel f hf]

/-! ### Properties of the INV and DIR readers -/

/-- A trailing blank line never changes what the INV and DIR readers collect. -/
theorem readRows_append_blank {α : Type} (proj : Row → α) :
    ∀ (input : List Line) (acc : List (Int × List α)),
      readRows proj acc (input ++ [Line.blank]) = readRows proj acc input := by
  intro input
  induction input with
  | nil => intro acc; rfl
  | cons l ls ih =>
    intro acc
    cases l with
    | blank => simpa [readRows] using ih acc
    | row r =>
      rcases hp : pyInt r.sentence_id with _ | i
      · simp [readRows, hp]
      · by_cases hg : r.gold_label = "_" <;> simp [readRows, hp, hg, ih]

/-- A retained row whose sentence id does not parse as an integer makes the
reading loop raise ValueError, wherever the row sits in the file. -/
theorem readRows_badId {α : Type} (proj : Row → α) :
    ∀ (input : List Line) (r : Row), Line.row r ∈ input →
      pyInt r.sentence_id = none →
      ∀ acc, readRows proj acc input = .error .valueError := by
  intro input
  induction input with
  | nil =>
    intro r hm
    simp at hm
  | cons l ls ih =>
    intro r hm hbad acc
    cases l with
    | blank =>
      have hmem : Line.row r ∈ ls := by
        rcases List.mem_cons.mp hm with h | h
        · exact absurd h (by simp)
        · exact h
      simpa [readRows] using ih r hmem hbad acc
    | row r0 =>
      rcases hp : pyInt r0.sentence_id with _ | i
      · simp [readRows, hp]
      · have hmem : Line.row r ∈ ls := by
          rcases List.mem_cons.mp hm with h | h
          · injection h with h'
            subst h'
            simp [hbad] at hp
          · exact h
        by_cases hg : r0.gold_label = "_" <;> simp [readRows, hp, hg, ih r hmem hbad]

/-- Unfolding rule for a successful INV evaluation. -/
theorem evaluate_inv_ok (input : List Line) (data : List (Int × List (String × String)))
    (pairs : List (Int × Int))
    (hd : readRows projInv [] input = .ok data)
    (hp : pairUp (sortInts (data.map Prod.fst)) = .ok pairs)
    (hnz : ¬pairs.length = 0) :
    evaluate_inv input
      = .ok (pyRate (pairs.filter (invVerdict data)).length pairs.length,
             (pairs.filter (invVerdict data)).map (fun p => fmtPair p.1 p.2)) := by
  unfold evaluate_inv
  simp only [hd, hp]
  rw [if_neg hnz]

/-- Unfolding rule for a successful DIR evaluation. -/
theorem evaluate_dir_ok (input : List Line)
    (data : List (Int × List (String × String × String)))
    (pairs : List (Int × Int))
    (hd : readRows projDir [] input = .ok data)
    (hp : pairUp (sortInts (data.map Prod.fst)) = .ok pairs)
    (hnz : ¬pairs.length = 0) :
    evaluate_dir input
      = .ok (pyRate (pairs.filter (dirVerdict data)).length pairs.length,
             (pairs.filter (dirVerdict data)).map (fun p => fmtPair p.1 p.2)) := by
  unfold evaluate_dir
  simp only [hd, hp]
  rw [if_neg hnz]

/-- A key that a built dict resolves occurs among the raw keys. -/
theorem buildMap_keys_sub {α : Type} (l : List (String × α)) (t : String) (v : α)
    (h : lookupMap (buildMap l) t = some v) : t ∈ l.map Prod.fst := by
  by_contra hc
  rw [lookupMap_buildMap, (lastAssign_eq_none_iff l t).mpr hc] at h
  exact Option.noConfusion h

/-! ### Claims -/

/-- An INV or DIR input with three retained sentences (ids 1, 2, 3). -/
def c1Input : List Line :=
  [.row ⟨"1", "1", "w", "ARG0", "ARG0"⟩, .blank,
   .row ⟨"2", "1", "w", "ARG0", "ARG0"⟩, .blank,
   .row ⟨"3", "1", "w", "ARG0", "ARG1"⟩, .blank]

/-- C1: the claim (and spec) say an odd retained-sentence count in INV/DIR is a
non-fatal warning and the trailing sentence is silently dropped from pairing,
with a result still returned over the complete pairs.  The code does print the
warning, but the pair loop `range(0, len(sentence_ids), 2)` then reads
`sentence_ids[i+1]` past the end of the list: on three sentences both scorers
raise IndexError and return nothing, so the odd count IS fatal. -/
theorem C1_odd_count_fatal :
    evaluate_inv c1Input = .error .indexError
    ∧ evaluate_dir c1Input = .error .indexError := by
  decide

/-- An MFT input where sentence 1 ends at the id change to sentence 2, and only
sentence 2 is terminated by a blank line; both sentences mismatch. -/
def c2Input : List Line :=
  [.row ⟨"1", "1", "w", "ARG0", "ARG1"⟩, .row ⟨"2", "1", "w", "ARG0", "ARG1"⟩, .blank]

/-- C2 counterexample: finalization at an id change does NOT increment the total
sentence count.  After `c2Input` the loop state counts 2 failures but only 1
total sentence (the claim's reading would give total 2), so the claim that a
sentence ending at an id change increments the total is false. -/
theorem C2_cex :
    mftRun c2Input = ⟨some "2", true, 1, 2, ["1", "2"]⟩ := by
  decide

/-- C2 amended: a row never increments the total count; a sentence ending at an
id change only records its failure (count and id, in file order); a sentence
ending at a blank line is fully finalized, so on blank-terminated inputs the
counters equal the per-sentence counts with failed ids in file order. -/
theorem C2_amended :
    (∀ (s : MftState) (r : Row),
      (mftStep s (.row r)).total_sentences = s.total_sentences)
    ∧ (∀ (s : MftState) (r : Row) (cid : String),
        s.current_sentence_id = some cid → cid ≠ r.sentence_id →
        s.sentence_labels_match = false →
        (mftStep s (.row r)).failed_sentences = s.failed_sentences + 1
        ∧ (mftStep s (.row r)).failed_sentence_ids = s.failed_sentence_ids ++ [cid])
    ∧ (∀ S : List (String × List (String × String)), (∀ p ∈ S, p.2 ≠ []) →
        (mftRun (render S)).total_sentences = S.length
        ∧ (mftRun (render S)).failed_sentences = (S.filter badSent).length
        ∧ (mftRun (render S)).failed_sentence_ids = (S.filter badSent).map Prod.fst) := by
  refine ⟨?_, ?_, ?_⟩
  · intro s r
    by_cases hc : s.current_sentence_id = some r.sentence_id
    · by_cases hbv : tokenBad r.gold_label r.system_label <;> simp [mftStep, hc, hbv]
    · rcases hcc : s.current_sentence_id with _ | cid
      · simp [mftStep, hcc]
      · rw [hcc] at hc
        by_cases hmv : s.sentence_labels_match <;> simp [mftStep, hcc, hc, hmv]
  · intro s r cid h1 h2 h3
    have hc : ¬s.current_sentence_id = some r.sentence_id := by
      rw [h1]
      simp [h2]
    constructor <;> simp [mftStep, h1, hc, h2, h3]
  · intro S hne
    have h := mftRender S mftInit rfl hne
    refine ⟨?_, ?_, ?_⟩ <;> rw [mftRun, h] <;> simp [mftInit]

/-- C2 witness: two blank-terminated sentences, the second mismatching, give
total 2, failed 1, failed ids `["2"]`. -/
theorem C2_witness :
    (mftRun (render [("1", [("ARG0", "ARG0")]), ("2", [("ARG0", "ARG1")])])).total_sentences = 2
    ∧ (mftRun (render [("1", [("ARG0", "ARG0")]), ("2", [("ARG0", "ARG1")])])).failed_sentences = 1
    ∧ (mftRun (render [("1", [("ARG0", "ARG0")]),
        ("2", [("ARG0", "ARG1")])])).failed_sentence_ids = ["2"] := by
  have h := C2_amended.2.2 [("1", [("ARG0", "ARG0")]), ("2", [("ARG0", "ARG1")])] (by decide)
  simpa using h

/-- C7: with zero counted sentences (MFT) or zero collected sentences and hence
zero pairs (INV/DIR), the rate division `failed / total` divides by zero and the
scorer raises ZeroDivisionError instead of returning a result. -/
theorem C7_empty_divzero :
    (∀ input : List Line, (mftRun input).total_sentences = 0 →
      evaluate_mft input = .error .zeroDivisionError)
    ∧ (∀ input : List Line, readRows projInv [] input = .ok [] →
      evaluate_inv input = .error .zeroDivisionError)
    ∧ (∀ input : List Line, readRows projDir [] input = .ok [] →
      evaluate_dir input = .error .zeroDivisionError) := by
  refine ⟨?_, ?_, ?_⟩
  · intro input h
    rw [evaluate_mft, if_pos h]
  · intro input h
    unfold evaluate_inv
    simp only [h]
    rfl
  · intro input h
    unfold evaluate_dir
    simp only [h]
    rfl

/-- C7 witness: the empty file raises ZeroDivisionError in all three scorers. -/
theorem C7_witness :
    evaluate_mft [] = .error .zeroDivisionError
    ∧ evaluate_inv [] = .error .zeroDivisionError
    ∧ evaluate_dir [] = .error .zeroDivisionError :=
  ⟨C7_empty_divzero.1 [] rfl, C7_empty_divzero.2.1 [] rfl, C7_empty_divzero.2.2 [] rfl⟩

/-- A one-sentence MFT input without the trailing blank line. -/
def c8Input : List Line :=
  [.row ⟨"1", "1", "w", "ARG0", "ARG1"⟩]

/-- C8 counterexample: for MFT the trailing blank line is NOT optional.  Without
it the only sentence is never finalized, the total stays 0 and the scorer
raises ZeroDivisionError; with the trailing blank it returns rate 100 with
failed id "1". -/
theorem C8_cex :
    evaluate_mft c8Input = .error .zeroDivisionError
    ∧ evaluate_mft (c8Input ++ [Line.blank]) = .ok (100, ["1"]) := by
  constructor
  · decide
  · have h1 : mftRun (c8Input ++ [Line.blank]) = ⟨some "1", true, 1, 1, ["1"]⟩ := by
      decide
    rw [evaluate_mft, h1]
    simp [pyRate_one_one]

/-- C8 amended: the INV and DIR scorers ignore blank lines entirely, so their
results never depend on a trailing blank line; the MFT part of the claim fails
(see the counterexample) because the last sentence is finalized only by a
blank line. -/
theorem C8_amended :
    ∀ input : List Line,
      evaluate_inv (input ++ [Line.blank]) = evaluate_inv input
      ∧ evaluate_dir (input ++ [Line.blank]) = evaluate_dir input := by
  intro input
  constructor
  · unfold evaluate_inv
    rw [readRows_append_blank]
  · unfold evaluate_dir
    rw [readRows_append_blank]

/-- C9: a sentence id all of whose input rows match (gold `"_"` or gold equal to
system) never appears in the failed id list; in particular a sentence whose
rows all carry gold `"_"` trivially passes. -/
theorem C9_good_sentence_never_fails :
    ∀ (input : List Line) (id : String),
      (∀ r : Row, Line.row r ∈ input → r.sentence_id = id →
        (r.gold_label = "_" ∨ r.gold_label = r.system_label)) →
      id ∉ (mftRun input).failed_sentence_ids := by
  intro input id h
  refine mftFold_goodId id input ?_ mftInit (by simp [mftInit]) (by simp [mftInit])
  intro r hm hid
  rcases h r hm hid with hg | hg <;> simp [tokenBad, hg]

/-- C9 witness: a sentence whose only row is not evaluated (gold `"_"`) with a
differing system label still never appears among the failed ids. -/
theorem C9_witness :
    "1" ∉ (mftRun [Line.row ⟨"1", "1", "w", "_", "X"⟩, Line.blank]).failed_sentence_ids := by
  refine C9_good_sentence_never_fails _ "1" ?_
  intro r hm _
  rcases List.mem_cons.mp hm with hm' | hm'
  · injection hm' with h'
    subst h'
    exact Or.inl rfl
  · rcases List.mem_cons.mp hm' with hm'' | hm''
    · exact absurd hm'' (by simp)
    · exact absurd hm'' (by simp)

/-- A well-formed one-sentence MFT file used as the healthy second batch file. -/
def c3OkInput : List Line :=
  [.row ⟨"1", "1", "w", "ARG0", "ARG0"⟩, .blank]

/-- C3 counterexample: a filename containing none of MFT/INV/DIR is NOT skipped
cleanly — after the warning, `evaluate_file` reads the unassigned
`evaluation_type` and raises UnboundLocalError — and errors are NOT file-scoped:
`main` has no try/except, so a batch whose first file has such a name aborts
before its second, perfectly healthy file, which alone would evaluate fine. -/
theorem C3_cex :
    evaluate_file "results.tsv" [] = .error .unboundLocalError
    ∧ main [("results.tsv", []), ("MFT_suite.tsv", c3OkInput)] = .error .unboundLocalError
    ∧ main [("MFT_suite.tsv", c3OkInput)] = .ok [("MFT", 0, [])] := by
  have hbad : evaluate_file "results.tsv" [] = .error .unboundLocalError := by
    have h1 : strHasSub "results.tsv" "MFT" = false := by decide
    have h2 : strHasSub "results.tsv" "INV" = false := by decide
    have h3 : strHasSub "results.tsv" "DIR" = false := by decide
    simp [evaluate_file, h1, h2, h3]
  have hmft : evaluate_mft c3OkInput = .ok (0, []) := by
    have h1 : mftRun c3OkInput = ⟨some "1", true, 1, 0, []⟩ := by decide
    rw [evaluate_mft, h1]
    simp [pyRate_zero]
  have hok : evaluate_file "MFT_suite.tsv" c3OkInput = .ok ("MFT", 0, []) := by
    have h1 : strHasSub "MFT_suite.tsv" "MFT" = true := by decide
    simp [evaluate_file, h1, hmft]
  refine ⟨hbad, ?_, ?_⟩
  · simp [main, hbad]
  · simp [main, hok]

/-- C3 amended: for a filename with none of the three substrings,
`evaluate_file` fails with UnboundLocalError rather than skipping; and any
error from the first file of a batch aborts `main` before the remaining files
are evaluated. -/
theorem C3_amended :
    (∀ (name : String) (content : List Line),
      strHasSub name "MFT" = false → strHasSub name "INV" = false →
      strHasSub name "DIR" = false →
      evaluate_file name content = .error .unboundLocalError)
    ∧ (∀ (name : String) (content : List Line) (rest : List (String × List Line))
        (e : PyErr), evaluate_file name content = .error e →
        main ((name, content) :: rest) = .error e) := by
  constructor
  · intro name content h1 h2 h3
    simp [evaluate_file, h1, h2, h3]
  · intro name content rest e h
    simp [main, h]

/-- C3 witness: the amended claim applied to a one-file batch with an
unclassifiable name. -/
theorem C3_witness :
    main [("results.tsv", [])] = .error .unboundLocalError :=
  C3_amended.2 "results.tsv" [] [] .unboundLocalError
    (C3_amended.1 "results.tsv" [] (by decide) (by decide) (by decide))

/-- C10: the INV and DIR scorers call `int(sentence_id)` on every row before
anything else, so any retained row with a non-numeric id makes them fail with
ValueError before any result; the MFT scorer never parses ids — it only
compares them for equality, commuting with any injective renaming — and a
non-numeric id is accepted. -/
theorem C10_id_parsing :
    (∀ (input : List Line) (r : Row), Line.row r ∈ input → r.gold_label ≠ "_" →
      pyInt r.sentence_id = none →
      evaluate_inv input = .error .valueError
      ∧ evaluate_dir input = .error .valueError)
    ∧ (∀ f : String → String, Function.Injective f → ∀ input : List Line,
        mftRun (input.map (relabelLine f)) = relabelState f (mftRun input))
    ∧ evaluate_mft [Line.row ⟨"abc", "1", "w", "ARG0", "ARG0"⟩, Line.blank]
        = .ok (0, []) := by
  refine ⟨?_, ?_, ?_⟩
  · intro input r hm _hg hbad
    constructor
    · unfold evaluate_inv
      rw [readRows_badId projInv input r hm hbad]
    · unfold evaluate_dir
      rw [readRows_badId projDir input r hm hbad]
  · intro f hf input
    exact mftRun_relabel f hf input
  · have h1 : mftRun [Line.row ⟨"abc", "1", "w", "ARG0", "ARG0"⟩, Line.blank]
        = ⟨some "abc", true, 1, 0, []⟩ := by decide
    rw [evaluate_mft, h1]
    simp [pyRate_zero]

/-- An INV input with one retained row whose sentence id is not numeric. -/
def c10Input : List Line :=
  [.row ⟨"x7", "1", "w", "ARG0", "ARG1"⟩, .blank]

/-- C10 witness: the first conjunct at a concrete non-numeric id, and the
renaming conjunct at the identity renaming. -/
theorem C10_witness :
    evaluate_inv c10Input = .error .valueError
    ∧ mftRun ([Line.blank].map (relabelLine id)) = relabelState id (mftRun [Line.blank]) :=
  ⟨(C10_id_parsing.1 c10Input ⟨"x7", "1", "w", "ARG0", "ARG1"⟩ (by decide) (by decide)
      (by decide)).1,
   C10_id_parsing.2.1 id (fun _ _ h => h) [Line.blank]⟩

/-- An INV input whose first sentence repeats gold label ARG0 with differing
system labels X then Y; the paired sentence maps ARG0 to Y. -/
def c4Input : List Line :=
  [.row ⟨"1", "1", "w1", "ARG0", "X"⟩, .row ⟨"1", "2", "w2", "ARG0", "Y"⟩, .blank,
   .row ⟨"2", "1", "w1", "ARG0", "Y"⟩, .blank]

/-- C4 counterexample: the claim predicts the pair (1, 2) passes, because the
last-write-wins maps agree (`map_A[ARG0] = Y = map_B[ARG0]`) — the spec-worded
predicate `invSpecPairFailed` evaluates to false on the two maps.  The code
iterates sentence 1's raw token list instead (`first_sentence_map` is built but
never read), meets the earlier occurrence `(ARG0, X)` with `X ≠ Y`, and fails
the pair: rate 100 with failed pair "1-2".  The verdict is therefore NOT
determined by the two maps alone. -/
theorem C4_cex :
    evaluate_inv c4Input = .ok (100, ["1-2"])
    ∧ invSpecPairFailed (buildMap [("ARG0", "X"), ("ARG0", "Y")])
        (buildMap [("ARG0", "Y")]) = false := by
  constructor
  · have h := evaluate_inv_ok c4Input
      [(1, [("ARG0", "X"), ("ARG0", "Y")]), (2, [("ARG0", "Y")])] [(1, 2)]
      (by decide) (by decide) (by decide)
    rw [h]
    have hfil : ([((1:Int), (2:Int))].filter
        (invVerdict [(1, [("ARG0", "X"), ("ARG0", "Y")]), (2, [("ARG0", "Y")])]))
        = [(1, 2)] := by decide
    rw [hfil]
    have hfmt : ([((1:Int), (2:Int))].map (fun p => fmtPair p.1 p.2)) = ["1-2"] := by
      decide
    rw [hfmt]
    norm_num [pyRate_one_one]
  · decide

/-- C4 amended: an INV pair (A, B) fails if and only if some retained occurrence
`(g, s)` in sentence A's token list (in file order, duplicates included) has its
gold label `g` present in B's last-write-wins map with a system label different
from `s`.  Sentence A's own map plays no part in the verdict. -/
theorem C4_amended :
    ∀ (A B : List (String × String)),
      invPairFailed A (buildMap B) = true
        ↔ ∃ g s, (g, s) ∈ A ∧ ∃ s2, lookupMap (buildMap B) g = some s2 ∧ s ≠ s2 := by
  intro A B
  rw [invPairFailed, List.any_eq_true]
  constructor
  · rintro ⟨⟨g, s⟩, hmem, hp⟩
    rcases hl : lookupMap (buildMap B) g with _ | s2
    · rw [hl] at hp
      exact absurd hp (by simp)
    · rw [hl] at hp
      exact ⟨g, s, hmem, s2, hl, of_decide_eq_true hp⟩
  · rintro ⟨g, s, hmem, s2, hl, hne⟩
    refine ⟨(g, s), hmem, ?_⟩
    rw [hl]
    exact decide_eq_true hne

/-- C4 amended witness: the amended characterisation applied to the
counterexample pair, exhibiting the failing occurrence (ARG0, X). -/
theorem C4_witness :
    invPairFailed [("ARG0", "X"), ("ARG0", "Y")] (buildMap [("ARG0", "Y")]) = true :=
  (C4_amended [("ARG0", "X"), ("ARG0", "Y")] [("ARG0", "Y")]).mpr
    ⟨"ARG0", "X", by decide, "Y", by decide, by decide⟩

/-- C6: a DIR pair fails if and only if some token text is a key of both
last-write-wins maps with the same system label on both sides; consequently a
pair whose sentences share no token text always passes. -/
theorem C6_dir_pair_maps :
    ∀ (A B : List (String × String × String)),
      (dirPairFailed (buildMap A) (buildMap B) = true
        ↔ ∃ t p q, lookupMap (buildMap A) t = some p
            ∧ lookupMap (buildMap B) t = some q ∧ p.2 = q.2)
      ∧ ((∀ t ∈ A.map Prod.fst, t ∉ B.map Prod.fst) →
          dirPairFailed (buildMap A) (buildMap B) = false) := by
  intro A B
  have hiff : dirPairFailed (buildMap A) (buildMap B) = true
      ↔ ∃ t p q, lookupMap (buildMap A) t = some p
          ∧ lookupMap (buildMap B) t = some q ∧ p.2 = q.2 := by
    rw [dirPairFailed, List.any_eq_true]
    constructor
    · rintro ⟨⟨t, gs⟩, hmem, hp⟩
      rcases hl : lookupMap (buildMap B) t with _ | q
      · rw [hl] at hp
        exact absurd hp (by simp)
      · rw [hl] at hp
        have hA : lookupMap (buildMap A) t = some gs :=
          lookupMap_of_mem_nodup _ _ _ (buildMap_nodupKeys A) hmem
        exact ⟨t, gs, q, hA, hl, of_decide_eq_true hp⟩
    · rintro ⟨t, p, q, hA, hB, heq⟩
      refine ⟨(t, p), lookupMap_mem _ _ _ hA, ?_⟩
      rw [hB]
      exact decide_eq_true heq
  refine ⟨hiff, ?_⟩
  intro hdisj
  rcases Bool.eq_false_or_eq_true (dirPairFailed (buildMap A) (buildMap B)) with h | h
  · obtain ⟨t, p, q, hA, hB, _⟩ := hiff.mp h
    exact absurd (buildMap_keys_sub B t q hB)
      (hdisj t (buildMap_keys_sub A t p hA))
  · exact h

/-- C6 witness: two sentences with no shared token text always pass. -/
theorem C6_witness :
    dirPairFailed (buildMap [("ran", "ARG0", "X")])
      (buildMap [("walked", "ARG0", "X")]) = false :=
  (C6_dir_pair_maps [("ran", "ARG0", "X")] [("walked", "ARG0", "X")]).2 (by decide)

/-- An MFT input whose two mismatching sentences are separated only by an id
change, with a single final blank line. -/
def c5aInput : List Line :=
  [.row ⟨"1", "1", "w", "ARG1", "ARG2"⟩, .row ⟨"2", "1", "w", "ARG1", "ARG2"⟩, .blank]

/-- A blank-separated MFT input with 100 one-row sentences of which the last 29
mismatch. -/
def c5bInput : List Line :=
  render (List.replicate 71 ("x", [("A", "A")]) ++ List.replicate 29 ("x", [("A", "B")]))

/-- C5 counterexample, two independent refutations.  First, `c5aInput` finalizes
sentence 1 at an id change, which increments `failed` but not `total`; the
scorer accepts the input (1 counted sentence) and returns rate 200, outside
[0, 100].  Second, on the blank-separated `c5bInput` the counts are
`failed = 29, total = 100`, and `int((29/100)*100)` in binary64 evaluates to 28
(the product is 28.999999999999996), one BELOW `floor(100*29/100) = 29`, so the
rate is not `floor(100*failed/total)` either. -/
theorem C5_cex :
    evaluate_mft c5aInput = .ok (200, ["1", "2"])
    ∧ evaluate_mft c5bInput = .ok (28, List.replicate 29 "x") := by
  constructor
  · have h1 : mftRun c5aInput = ⟨some "2", true, 1, 2, ["1", "2"]⟩ := by decide
    rw [evaluate_mft, h1]
    simp [pyRate_two_one]
  · have h1 : mftRun c5bInput = ⟨some "x", true, 100, 29, List.replicate 29 "x"⟩ := by
      decide
    rw [evaluate_mft, h1]
    simp [pyRate_29_100]

/-- C5 amended: the rate is `int((failed/total)*100)` computed in binary64 and
truncated toward zero.  For INV and DIR, `failed_pairs ≤ total_pairs` always
holds, and the returned rate does lie in [0, 100]; it can be one below
`floor(100*failed/total)` under double rounding (29 of 100 gives 28).  For MFT,
sentences finalized by an id change inflate `failed` without `total`, so the
rate can exceed 100 (the counterexample returns 200). -/
theorem C5_amended :
    (∀ (input : List Line) (r : Int) (ids : List String),
      evaluate_inv input = .ok (r, ids) → 0 ≤ r ∧ r ≤ 100)
    ∧ (∀ (input : List Line) (r : Int) (ids : List String),
      evaluate_dir input = .ok (r, ids) → 0 ≤ r ∧ r ≤ 100) := by
  constructor
  · intro input r ids h
    unfold evaluate_inv at h
    rcases hd : readRows projInv [] input with e | data
    · rw [hd] at h
      exact absurd h (by simp)
    · simp only [hd] at h
      rcases hp : pairUp (sortInts (data.map Prod.fst)) with e | pairs
      · simp only [hp] at h
        exact absurd h (by simp)
      · simp only [hp] at h
        by_cases hz : pairs.length = 0
        · rw [if_pos hz] at h
          exact absurd h (by simp)
        · rw [if_neg hz] at h
          have hinj := Except.ok.inj h
          have h1 : pyRate (pairs.filter (invVerdict data)).length pairs.length = r :=
            congrArg Prod.fst hinj
          have hb := pyRate_bounds (pairs.filter (invVerdict data)).length pairs.length
            (List.length_filter_le _ _) (Nat.pos_of_ne_zero hz)
          rw [h1] at hb
          exact hb
  · intro input r ids h
    unfold evaluate_dir at h
    rcases hd : readRows projDir [] input with e | data
    · rw [hd] at h
      exact absurd h (by simp)
    · simp only [hd] at h
      rcases hp : pairUp (sortInts (data.map Prod.fst)) with e | pairs
      · simp only [hp] at h
        exact absurd h (by simp)
      · simp only [hp] at h
        by_cases hz : pairs.length = 0
        · rw [if_pos hz] at h
          exact absurd h (by simp)
        · rw [if_neg hz] at h
          have hinj := Except.ok.inj h
          have h1 : pyRate (pairs.filter (dirVerdict data)).length pairs.length = r :=
            congrArg Prod.fst hinj
          have hb := pyRate_bounds (pairs.filter (dirVerdict data)).length pairs.length
            (List.length_filter_le _ _) (Nat.pos_of_ne_zero hz)
          rw [h1] at hb
          exact hb

/-- An INV input with one failing pair, used to instantiate the amended claim. -/
def c5wInput : List Line :=
  [.row ⟨"1", "1", "w", "ARG0", "X"⟩, .blank, .row ⟨"2", "1", "w", "ARG0", "Y"⟩, .blank]

/-- Evaluation of the witness input: one pair, failing, rate 100. -/
theorem c5w_eval : evaluate_inv c5wInput = .ok (100, ["1-2"]) := by
  have h := evaluate_inv_ok c5wInput [(1, [("ARG0", "X")]), (2, [("ARG0", "Y")])] [(1, 2)]
    (by decide) (by decide) (by decide)
  rw [h]
  have hfil : ([((1:Int), (2:Int))].filter
      (invVerdict [(1, [("ARG0", "X")]), (2, [("ARG0", "Y")])])) = [(1, 2)] := by decide
  rw [hfil]
  have hfmt : ([((1:Int), (2:Int))].map (fun p => fmtPair p.1 p.2)) = ["1-2"] := by decide
  rw [hfmt]
  norm_num [pyRate_one_one]

/-- C5 witness: the amended bound applied to a concrete INV run. -/
theorem C5_witness : (0:ℤ) ≤ 100 ∧ (100:ℤ) ≤ 100 :=
  C5_amended.1 c5wInput 100 ["1-2"] c5w_eval
